import Mathlib

/-!
Verification of the aggregation pipeline of `retail_performance_analysis.py`
(class `RetailAnalytics`).

The tabular dataset is embedded as a list of records (`Row`), one per
(store, month) observation.  Numeric columns are embedded as exact rationals.
A float value that pandas/NumPy would report as non-finite (NaN or ±inf, e.g.
from a division by zero) is embedded as `none : Option ℚ`; every division the
source performs on a possibly-zero denominator goes through `safeDiv`.
`DataFrame.round(d)` / NumPy half-even rounding to `d` decimal places is
embedded as exact half-even rounding on ℚ (`roundTo`).
`groupby(key)` is embedded by the list of distinct key values (`groupKeys`)
together with the sublist of rows at each key (`groupRows`); pandas sorts the
group keys, which never affects the sums, shares and memberships proved here,
except for the month-of-year seasonality where the keys are sorted explicitly
(`sortedMonths`).
-/

/-- One observation of the retail dataset: the columns of the CSV loaded by
`RetailAnalytics.__init__`. -/
structure Row where
  store_id : String
  chain_name : String
  category : String
  region : String
  tier : String
  year : ℕ
  month : ℕ
  sales_amount : ℚ
  net_profit : ℚ
  gross_margin_pct : ℚ
  net_margin_pct : ℚ
  customer_count : ℚ
  avg_basket_value : ℚ
  inventory_turnover_ratio : ℚ
  customer_satisfaction_score : ℚ
  total_items_sold : ℚ
deriving DecidableEq, Repr

/-- Division as pandas performs it on float columns: a zero denominator
produces a non-finite value (NaN or ±inf), embedded as `none`; it never
raises and never yields `0`. -/
def safeDiv (x y : ℚ) : Option ℚ :=
  if y = 0 then none else some (x / y)

/-- Arithmetic mean of a list of rationals (`Series.mean`).  Every use in
this file is on a nonempty list (groupby groups are nonempty); the empty case
(pandas: NaN) never arises at the call sites proved about. -/
def mean (l : List ℚ) : ℚ := l.sum / l.length

/-- Round a rational to the nearest integer, ties to even
(NumPy / pandas rounding). -/
def roundHalfEven (x : ℚ) : ℤ :=
  if x - ⌊x⌋ < 1/2 then ⌊x⌋
  else if 1/2 < x - ⌊x⌋ then ⌊x⌋ + 1
  else if ⌊x⌋ % 2 = 0 then ⌊x⌋ else ⌊x⌋ + 1

/-- `Series.round(d)`: half-even rounding to `d` decimal places. -/
def roundTo (d : ℕ) (x : ℚ) : ℚ :=
  (roundHalfEven (x * 10 ^ d) : ℚ) / 10 ^ d

/-- `roundTo` lifted to possibly-NaN values (`NaN.round()` is NaN). -/
def roundOpt (d : ℕ) (x : Option ℚ) : Option ℚ := x.map (roundTo d)

/-- The distinct values of a grouping key: the index of
`rows.groupby(key)`.  (pandas sorts this index; no property proved here
depends on the index order, and the concrete datasets below list their keys
already duplicate-free and sorted.) -/
def groupKeys {α K : Type} [DecidableEq K] (l : List α) (key : α → K) : List K :=
  (l.map key).dedup

/-- The rows of one groupby group: the rows whose key equals `k`. -/
def groupRows {α K : Type} [DecidableEq K] (l : List α) (key : α → K) (k : K) : List α :=
  l.filter (fun r => decide (key r = k))

/-- Grouped `sum` reduction of the measure `m` over the group at key `k`. -/
def groupSum {α K : Type} [DecidableEq K] (l : List α) (key : α → K) (k : K) (m : α → ℚ) : ℚ :=
  ((groupRows l key k).map m).sum

/-- Grouped `mean` reduction of the measure `m` over the group at key `k`. -/
def groupMean {α K : Type} [DecidableEq K] (l : List α) (key : α → K) (k : K) (m : α → ℚ) : ℚ :=
  mean ((groupRows l key k).map m)

/-- Grouped `nunique` reduction: distinct values of `m` inside the group. -/
def groupNunique {α K M : Type} [DecidableEq K] [DecidableEq M]
    (l : List α) (key : α → K) (k : K) (m : α → M) : ℕ :=
  ((groupRows l key k).map m).dedup.length

/-! ## financial_analysis -/

/-- Overall `self.data['sales_amount'].sum()` of `financial_analysis`. -/
def total_revenue (rows : List Row) : ℚ := (rows.map (·.sales_amount)).sum

/-- Overall `self.data['net_profit'].sum()` of `financial_analysis`. -/
def total_profit (rows : List Row) : ℚ := (rows.map (·.net_profit)).sum

/-- Overall margin of `financial_analysis`:
`(total_profit/total_revenue)*100`, the ratio-of-sums margin. -/
def overall_margin (rows : List Row) : Option ℚ :=
  (safeDiv (total_profit rows) (total_revenue rows)).map (· * 100)

/-- Overall `self.data['net_margin_pct'].mean()` of `financial_analysis`:
the mean-of-row-margins. -/
def avg_margin (rows : List Row) : ℚ := mean (rows.map (·.net_margin_pct))

/-- One row of the `chain_performance` table of `financial_analysis`. -/
structure ChainPerf where
  Total_Sales : ℚ
  Avg_Sales : ℚ
  Total_Profit : ℚ
  Avg_Margin : ℚ
  Total_Customers : ℚ
  Store_Count : ℕ
  Sales_Crores : ℚ
  ROI_Score : ℚ
deriving DecidableEq, Repr

/-- The distinct chain names: the index of `groupby('chain_name')`. -/
def chainKeys (rows : List Row) : List String := groupKeys rows (·.chain_name)

/-- The `chain_performance` row at chain `c`:
`groupby('chain_name').agg({...}).round(2)` followed by the two derived
columns `Sales_Crores` and `ROI_Score` (computed from the rounded fields,
as the source does). -/
def chain_performance (rows : List Row) (c : String) : ChainPerf :=
  let ts := roundTo 2 (groupSum rows (·.chain_name) c (·.sales_amount))
  let am := roundTo 2 (groupMean rows (·.chain_name) c (·.net_margin_pct))
  let tc := roundTo 2 (groupSum rows (·.chain_name) c (·.customer_count))
  { Total_Sales := ts
    Avg_Sales := roundTo 2 (groupMean rows (·.chain_name) c (·.sales_amount))
    Total_Profit := roundTo 2 (groupSum rows (·.chain_name) c (·.net_profit))
    Avg_Margin := am
    Total_Customers := tc
    Store_Count := groupNunique rows (·.chain_name) c (·.store_id)
    Sales_Crores := roundTo 1 (ts / 10000000)
    ROI_Score := roundTo 2 (am * tc / 100000) }

/-- Row constructor for concrete test datasets: the dimensions and the
measures that the proved properties inspect; the remaining measures are
fixed. -/
def mkRow (sid chain cat reg tr : String) (yr mo : ℕ) (sales profit nm cust : ℚ) : Row :=
  { store_id := sid, chain_name := chain, category := cat, region := reg, tier := tr,
    year := yr, month := mo, sales_amount := sales, net_profit := profit,
    gross_margin_pct := nm, net_margin_pct := nm, customer_count := cust,
    avg_basket_value := 1, inventory_turnover_ratio := 1,
    customer_satisfaction_score := 1, total_items_sold := 1 }

/-- The fixture of §8 of the spec: 3 rows for chain "A" with sales
[100, 200, 300] and profits [10, 10, 15]; per-row net margins are
profit/sales×100 = [10, 5, 5]. -/
def fixtureA : List Row :=
  [ mkRow "S1" "A" "Grocery" "South" "Metro" 2023 1 100 10 10 1,
    mkRow "S2" "A" "Grocery" "South" "Metro" 2023 1 200 10 5 1,
    mkRow "S3" "A" "Grocery" "South" "Metro" 2023 1 300 15 5 1 ]

/-- C1: the per-chain aggregate takes the arithmetic mean of the per-row
`net_margin_pct` (mean-of-row-margins) while the overall report divides the
profit sum by the sales sum (ratio-of-sums); on the 3-row fixture for chain
"A" these give total_sales = 600, total_profit = 35, ratio-of-sums margin
35/600×100 = 35/6 = 5.833...%, mean-of-row-margins 20/3 = 6.667% (to three
decimals), and the two values differ. -/
theorem overall_margin_vs_chain_mean_margin :
    total_revenue fixtureA = 600 ∧
    total_profit fixtureA = 35 ∧
    overall_margin fixtureA = some (35 / 6) ∧
    avg_margin fixtureA = 20 / 3 ∧
    (chain_performance fixtureA "A").Avg_Margin = roundTo 2 (20 / 3) ∧
    roundTo 3 (35 / 6) = 5833 / 1000 ∧
    roundTo 3 (20 / 3) = 6667 / 1000 ∧
    (35 / 6 : ℚ) ≠ 20 / 3 := by
  norm_num [total_revenue, total_profit, overall_margin, avg_margin, chain_performance,
    groupSum, groupMean, groupNunique, groupRows, groupKeys, mean, safeDiv,
    roundTo, roundHalfEven, fixtureA, mkRow]

/-! ## regional_analysis -/

/-- One row of the `regional_metrics` table of `regional_analysis`:
`groupby('region').agg({...}).round(0)` followed by the two derived ratio
columns.  `Sales_Per_Store` and `Profit_Margin` divide by possibly-zero
reduced fields, so they carry the NaN policy (`Option`). -/
structure RegionalMetrics where
  sales_amount : ℚ
  net_profit : ℚ
  store_count : ℕ
  customer_count : ℚ
  Sales_Per_Store : Option ℚ
  Profit_Margin : Option ℚ
deriving DecidableEq, Repr

/-- The distinct regions: the index of `groupby('region')`. -/
def regionKeys (rows : List Row) : List String := groupKeys rows (·.region)

/-- The `regional_metrics` row at region `k`. -/
def regional_metrics (rows : List Row) (k : String) : RegionalMetrics :=
  let s := roundTo 0 (groupSum rows (·.region) k (·.sales_amount))
  let p := roundTo 0 (groupSum rows (·.region) k (·.net_profit))
  let n := groupNunique rows (·.region) k (·.store_id)
  { sales_amount := s
    net_profit := p
    store_count := n
    customer_count := roundTo 0 (groupSum rows (·.region) k (·.customer_count))
    Sales_Per_Store := roundOpt 0 (safeDiv s (n : ℚ))
    Profit_Margin := roundOpt 2 ((safeDiv p s).map (· * 100)) }

/-! ## operational_analysis -/

/-- One row of the `store_efficiency` table of `operational_analysis`:
`groupby(['store_id','chain_name','tier']).agg({...})` (no rounding on the
aggregate) plus the two derived ratio columns. -/
structure StoreEff where
  store_id : String
  chain_name : String
  tier : String
  sales_amount : ℚ
  net_profit : ℚ
  customer_count : ℚ
  total_items_sold : ℚ
  inventory_turnover_ratio : ℚ
  customer_satisfaction_score : ℚ
  sales_per_customer : Option ℚ
  profit_margin : Option ℚ
deriving DecidableEq, Repr

/-- The composite grouping key of `store_efficiency`. -/
def storeKey (r : Row) : String × String × String := (r.store_id, r.chain_name, r.tier)

/-- The distinct (store_id, chain_name, tier) triples: the index of the
per-store groupby. -/
def storeKeys (rows : List Row) : List (String × String × String) := groupKeys rows storeKey

/-- The `store_efficiency` row at key `k`. -/
def store_efficiency (rows : List Row) (k : String × String × String) : StoreEff :=
  let s := groupSum rows storeKey k (·.sales_amount)
  let p := groupSum rows storeKey k (·.net_profit)
  let c := groupSum rows storeKey k (·.customer_count)
  { store_id := k.1
    chain_name := k.2.1
    tier := k.2.2
    sales_amount := s
    net_profit := p
    customer_count := c
    total_items_sold := groupSum rows storeKey k (·.total_items_sold)
    inventory_turnover_ratio := groupMean rows storeKey k (·.inventory_turnover_ratio)
    customer_satisfaction_score := groupMean rows storeKey k (·.customer_satisfaction_score)
    sales_per_customer := roundOpt 0 (safeDiv s c)
    profit_margin := roundOpt 2 ((safeDiv p s).map (· * 100)) }

/-! ## Basic groupby facts -/

/-- Membership in a groupby group. -/
theorem mem_groupRows {α K : Type} [DecidableEq K] {l : List α} {key : α → K} {k : K} {r : α} :
    r ∈ groupRows l key k ↔ r ∈ l ∧ key r = k := by
  simp [groupRows]

/-- Membership in the groupby index. -/
theorem mem_groupKeys {α K : Type} [DecidableEq K] {l : List α} {key : α → K} {k : K} :
    k ∈ groupKeys l key ↔ ∃ r ∈ l, key r = k := by
  simp [groupKeys, List.mem_dedup]

/-- Rounding fixes zero. -/
theorem roundTo_zero (d : ℕ) : roundTo d 0 = 0 := by
  norm_num [roundTo, roundHalfEven]

/-- C2 theorem: in the per-region and per-store aggregates, a group whose
summed sales_amount is zero gets an undefined (`none`, i.e. NaN) profit
margin: the total function never raises and the result is not `0`. -/
theorem zero_sales_margin_undefined (rows : List Row) :
    (∀ k ∈ regionKeys rows,
      groupSum rows (·.region) k (·.sales_amount) = 0 →
        (regional_metrics rows k).Profit_Margin = none) ∧
    (∀ k ∈ storeKeys rows,
      groupSum rows storeKey k (·.sales_amount) = 0 →
        (store_efficiency rows k).profit_margin = none) := by
  constructor
  · intro k _ h
    simp [regional_metrics, h, roundTo_zero, safeDiv, roundOpt]
  · intro k _ h
    simp [store_efficiency, h, safeDiv, roundOpt]

/-- Concrete dataset with a zero-sales region (and hence a zero-sales store
group). -/
def fixtureZero : List Row :=
  [ mkRow "S1" "A" "Grocery" "North" "Metro" 2023 1 0 5 0 10 ]

/-- C2 witness: on `fixtureZero` the region "North" and the store group
("S1","A","Metro") have zero summed sales and their profit margins are NaN. -/
theorem zero_sales_margin_undefined_witness :
    (regional_metrics fixtureZero "North").Profit_Margin = none ∧
    (store_efficiency fixtureZero ("S1", "A", "Metro")).profit_margin = none := by
  constructor
  · exact (zero_sales_margin_undefined fixtureZero).1 "North"
      (by simp [regionKeys, groupKeys, fixtureZero, mkRow])
      (by norm_num [groupSum, groupRows, fixtureZero, mkRow])
  · exact (zero_sales_margin_undefined fixtureZero).2 ("S1", "A", "Metro")
      (by simp [storeKeys, groupKeys, storeKey, fixtureZero, mkRow])
      (by norm_num [groupSum, groupRows, storeKey, fixtureZero, mkRow])

/-- C10 theorem: every group of the per-region aggregate contains at least one
row, so its distinct-store count is at least 1 and the `Sales_Per_Store`
division is defined (its division-by-zero branch is unreachable), even though
`Profit_Margin` in the same table can be undefined. -/
theorem region_store_count_pos (rows : List Row) (k : String)
    (hk : k ∈ regionKeys rows) :
    1 ≤ (regional_metrics rows k).store_count ∧
    (regional_metrics rows k).Sales_Per_Store.isSome = true := by
  obtain ⟨r, hr, hkey⟩ := mem_groupKeys.mp hk
  have hmem : r ∈ groupRows rows (·.region) k := mem_groupRows.mpr ⟨hr, hkey⟩
  have hpos : 1 ≤ groupNunique rows (·.region) k (·.store_id) := by
    have : r.store_id ∈ ((groupRows rows (·.region) k).map (·.store_id)).dedup :=
      List.mem_dedup.mpr (List.mem_map_of_mem _ hmem)
    have hne := List.ne_nil_of_mem this
    have := List.length_pos.mpr hne
    simpa [groupNunique] using this
  refine ⟨hpos, ?_⟩
  have hcast : ((groupNunique rows (·.region) k (·.store_id) : ℕ) : ℚ) ≠ 0 := by
    have hne0 : groupNunique rows (·.region) k (·.store_id) ≠ 0 := by omega
    exact_mod_cast hne0
  simp [regional_metrics, safeDiv, hcast, roundOpt]

/-- C10 witness: on the 3-row fixture, the region "South" has a positive
store count and a defined `Sales_Per_Store`. -/
theorem region_store_count_pos_witness :
    1 ≤ (regional_metrics fixtureA "South").store_count ∧
    (regional_metrics fixtureA "South").Sales_Per_Store.isSome = true :=
  region_store_count_pos fixtureA "South"
    (by simp [regionKeys, groupKeys, fixtureA, mkRow])

/-! ## time_series_analysis -/

/-- Chronological order on (year, month) keys, as pandas sorts the
`groupby(['year','month'])` index. -/
def chronoLe (a b : ℕ × ℕ) : Bool :=
  decide (a.1 < b.1 ∨ (a.1 = b.1 ∧ a.2 ≤ b.2))

/-- The distinct (year, month) keys in chronological order: the index of
`monthly_trends`. -/
def monthlyKeys (rows : List Row) : List (ℕ × ℕ) :=
  ((rows.map (fun r => (r.year, r.month))).dedup).mergeSort chronoLe

/-- The chronologically ordered monthly sales totals
(`monthly_trends['sales_amount']`). -/
def monthlySales (rows : List Row) : List ℚ :=
  (monthlyKeys rows).map (fun k => groupSum rows (fun r => (r.year, r.month)) k (·.sales_amount))

/-- `Series.pct_change() * 100` over a chronologically ordered value
sequence: the first entry is NaN (`none`); entry i+1 is
(value[i+1] − value[i]) / value[i] × 100, NaN when the predecessor is 0
(pandas: a non-finite value). -/
def pctChange : List ℚ → List (Option ℚ)
  | [] => []
  | v :: t =>
      none :: List.zipWith (fun prev cur => (safeDiv (cur - prev) prev).map (· * 100)) (v :: t) t

/-- `monthly_trends['sales_growth']`. -/
def sales_growth (rows : List Row) : List (Option ℚ) := pctChange (monthlySales rows)

/-- C4 theorem: period-over-period growth: the output has one entry per
period, the first entry is undefined (`none`, not zero), and every later
entry with a nonzero predecessor equals
(value[i] − value[i−1]) / value[i−1] × 100. -/
theorem pct_change_spec (vals : List ℚ) (hne : vals ≠ []) :
    (pctChange vals).length = vals.length ∧
    (pctChange vals).head? = some none ∧
    (∀ i, ∀ h1 : i < vals.length, ∀ h2 : i + 1 < vals.length,
      ∀ h3 : i + 1 < (pctChange vals).length,
      vals[i] ≠ 0 →
      (pctChange vals)[i + 1] = some ((vals[i + 1] - vals[i]) / vals[i] * 100)) := by
  obtain ⟨v, t, rfl⟩ := List.exists_cons_of_ne_nil hne
  refine ⟨by simp [pctChange], rfl, ?_⟩
  intro i h1 h2 h3 hv
  have hi : i < t.length := by simpa using Nat.lt_of_succ_lt_succ h2
  have hz : i < (List.zipWith
      (fun prev cur => (safeDiv (cur - prev) prev).map (· * 100)) (v :: t) t).length := by
    simpa [List.length_zipWith] using hi
  show (none :: List.zipWith _ (v :: t) t)[i + 1] = _
  rw [List.getElem_cons_succ, List.getElem_zipWith]
  have ht : t[i] = (v :: t)[i + 1] := by simp
  rw [ht]
  simp [safeDiv, hv]

/-- C4 witness: on the two-period sequence 100, 120 the first growth entry is
undefined and the second is exactly 20.0. -/
theorem pct_change_spec_witness :
    (pctChange [(100 : ℚ), 120]).head? = some none ∧
    (pctChange [(100 : ℚ), 120]).get ⟨1, by norm_num [pctChange]⟩ = some 20 := by
  have h := pct_change_spec [(100 : ℚ), 120] (by simp)
  refine ⟨h.2.1, ?_⟩
  have h2 := h.2.2 0 (by norm_num) (by norm_num) (by norm_num [pctChange]) (by norm_num)
  rw [List.get_eq_getElem]
  rw [h2]
  norm_num

/-- The per-month-of-year mean sales
(`self.data.groupby('month')['sales_amount'].mean()`), indexed by the
distinct month numbers in ascending order (pandas sorts the groupby index). -/
def sortedMonths (rows : List Row) : List ℕ :=
  ((rows.map (·.month)).dedup).mergeSort (fun a b => decide (a ≤ b))

/-- The seasonal series: (month-of-year, mean sales over all rows of that
month, across all years). -/
def seasonal_performance (rows : List Row) : List (ℕ × ℚ) :=
  (sortedMonths rows).map (fun m => (m, groupMean rows (·.month) m (·.sales_amount)))

/-- `Series.idxmax`: the index label of the first occurrence of the maximum
value, scanning in index order. -/
def idxmax : List (ℕ × ℚ) → Option (ℕ × ℚ)
  | [] => none
  | p :: rest =>
      match idxmax rest with
      | none => some p
      | some q => if p.2 < q.2 then some q else some p

/-- `Series.idxmin`: the index label of the first occurrence of the minimum
value, scanning in index order. -/
def idxmin : List (ℕ × ℚ) → Option (ℕ × ℚ)
  | [] => none
  | p :: rest =>
      match idxmin rest with
      | none => some p
      | some q => if q.2 < p.2 then some q else some p

/-- `peak_month = seasonal_performance.idxmax()`. -/
def peak_month (rows : List Row) : Option ℕ := (idxmax (seasonal_performance rows)).map (·.1)

/-- `low_month = seasonal_performance.idxmin()`. -/
def low_month (rows : List Row) : Option ℕ := (idxmin (seasonal_performance rows)).map (·.1)

/-- idxmax of a nonempty series exists. -/
theorem idxmax_isSome {l : List (ℕ × ℚ)} (h : l ≠ []) : (idxmax l).isSome = true := by
  cases l with
  | nil => exact absurd rfl h
  | cons p rest =>
      cases hr : idxmax rest <;> simp [idxmax, hr] <;> split <;> simp

/-- idxmin of a nonempty series exists. -/
theorem idxmin_isSome {l : List (ℕ × ℚ)} (h : l ≠ []) : (idxmin l).isSome = true := by
  cases l with
  | nil => exact absurd rfl h
  | cons p rest =>
      cases hr : idxmin rest <;> simp [idxmin, hr] <;> split <;> simp

/-- idxmax returns a member attaining the maximum value. -/
theorem idxmax_spec {l : List (ℕ × ℚ)} {p : ℕ × ℚ} (hp : idxmax l = some p) :
    p ∈ l ∧ ∀ q ∈ l, q.2 ≤ p.2 := by
  induction l generalizing p with
  | nil => simp [idxmax] at hp
  | cons a rest ih =>
      cases hr : idxmax rest with
      | none =>
          simp only [idxmax, hr] at hp
          have hrest : rest = [] := by
            by_contra hne
            have := idxmax_isSome hne
            rw [hr] at this
            simp at this
          obtain rfl : a = p := by simpa using hp
          subst hrest
          simp
      | some q =>
          simp only [idxmax, hr] at hp
          obtain ⟨hqmem, hqmax⟩ := ih hr
          by_cases hlt : a.2 < q.2
          · rw [if_pos hlt] at hp
            obtain rfl : q = p := by simpa using hp
            exact ⟨List.mem_cons_of_mem _ hqmem, by
              intro r hr2
              rcases List.mem_cons.mp hr2 with h1 | h1
              · subst h1; exact le_of_lt hlt
              · exact hqmax r h1⟩
          · rw [if_neg hlt] at hp
            obtain rfl : a = p := by simpa using hp
            exact ⟨List.mem_cons_self _ _, by
              intro r hr2
              rcases List.mem_cons.mp hr2 with h1 | h1
              · subst h1; exact le_refl _
              · exact le_trans (hqmax r h1) (le_of_not_lt hlt)⟩

/-- idxmin returns a member attaining the minimum value. -/
theorem idxmin_spec {l : List (ℕ × ℚ)} {p : ℕ × ℚ} (hp : idxmin l = some p) :
    p ∈ l ∧ ∀ q ∈ l, p.2 ≤ q.2 := by
  induction l generalizing p with
  | nil => simp [idxmin] at hp
  | cons a rest ih =>
      cases hr : idxmin rest with
      | none =>
          simp only [idxmin, hr] at hp
          have hrest : rest = [] := by
            by_contra hne
            have := idxmin_isSome hne
            rw [hr] at this
            simp at this
          obtain rfl : a = p := by simpa using hp
          subst hrest
          simp
      | some q =>
          simp only [idxmin, hr] at hp
          obtain ⟨hqmem, hqmin⟩ := ih hr
          by_cases hlt : q.2 < a.2
          · rw [if_pos hlt] at hp
            obtain rfl : q = p := by simpa using hp
            exact ⟨List.mem_cons_of_mem _ hqmem, by
              intro r hr2
              rcases List.mem_cons.mp hr2 with h1 | h1
              · subst h1; exact le_of_lt hlt
              · exact hqmin r h1⟩
          · rw [if_neg hlt] at hp
            obtain rfl : a = p := by simpa using hp
            exact ⟨List.mem_cons_self _ _, by
              intro r hr2
              rcases List.mem_cons.mp hr2 with h1 | h1
              · subst h1; exact le_refl _
              · exact le_trans (le_of_not_lt hlt) (hqmin r h1)⟩

/-- On a series whose index labels are strictly increasing, idxmax picks the
smallest label among the maximizers (first occurrence in index order). -/
theorem idxmax_first {l : List (ℕ × ℚ)} (hl : l.Pairwise (fun a b => a.1 < b.1))
    {p : ℕ × ℚ} (hp : idxmax l = some p) :
    ∀ q ∈ l, q.2 = p.2 → p.1 ≤ q.1 := by
  induction l generalizing p with
  | nil => simp [idxmax] at hp
  | cons a rest ih =>
      have ha := (List.pairwise_cons.mp hl).1
      have hrest := (List.pairwise_cons.mp hl).2
      cases hr : idxmax rest with
      | none =>
          simp only [idxmax, hr] at hp
          have hrnil : rest = [] := by
            by_contra hne
            have := idxmax_isSome hne
            rw [hr] at this
            simp at this
          obtain rfl : a = p := by simpa using hp
          subst hrnil
          intro q hq _
          obtain rfl : q = a := by simpa using hq
          exact le_refl _
      | some q0 =>
          simp only [idxmax, hr] at hp
          by_cases hlt : a.2 < q0.2
          · rw [if_pos hlt] at hp
            obtain rfl : q0 = p := by simpa using hp
            intro q hq hval
            rcases List.mem_cons.mp hq with h1 | h1
            · subst h1
              exact absurd hval (ne_of_lt hlt)
            · exact ih hrest hr q h1 hval
          · rw [if_neg hlt] at hp
            obtain rfl : a = p := by simpa using hp
            intro q hq _
            rcases List.mem_cons.mp hq with h1 | h1
            · subst h1; exact le_refl _
            · exact le_of_lt (ha q h1)

/-- On a series whose index labels are strictly increasing, idxmin picks the
smallest label among the minimizers (first occurrence in index order). -/
theorem idxmin_first {l : List (ℕ × ℚ)} (hl : l.Pairwise (fun a b => a.1 < b.1))
    {p : ℕ × ℚ} (hp : idxmin l = some p) :
    ∀ q ∈ l, q.2 = p.2 → p.1 ≤ q.1 := by
  induction l generalizing p with
  | nil => simp [idxmin] at hp
  | cons a rest ih =>
      have ha := (List.pairwise_cons.mp hl).1
      have hrest := (List.pairwise_cons.mp hl).2
      cases hr : idxmin rest with
      | none =>
          simp only [idxmin, hr] at hp
          have hrnil : rest = [] := by
            by_contra hne
            have := idxmin_isSome hne
            rw [hr] at this
            simp at this
          obtain rfl : a = p := by simpa using hp
          subst hrnil
          intro q hq _
          obtain rfl : q = a := by simpa using hq
          exact le_refl _
      | some q0 =>
          simp only [idxmin, hr] at hp
          by_cases hlt : q0.2 < a.2
          · rw [if_pos hlt] at hp
            obtain rfl : q0 = p := by simpa using hp
            intro q hq hval
            rcases List.mem_cons.mp hq with h1 | h1
            · subst h1
              exact absurd hval (ne_of_gt hlt)
            · exact ih hrest hr q h1 hval
          · rw [if_neg hlt] at hp
            obtain rfl : a = p := by simpa using hp
            intro q hq _
            rcases List.mem_cons.mp hq with h1 | h1
            · subst h1; exact le_refl _
            · exact le_of_lt (ha q h1)

/-- The sorted month index is strictly increasing. -/
theorem sortedMonths_sorted_lt (rows : List Row) :
    (sortedMonths rows).Pairwise (· < ·) := by
  have hnd : ((rows.map (·.month)).dedup).Nodup := List.nodup_dedup _
  have hperm := List.mergeSort_perm ((rows.map (·.month)).dedup) (fun a b => decide (a ≤ b))
  have hnd2 : (sortedMonths rows).Nodup := by
    unfold sortedMonths
    exact (hperm.nodup_iff).mpr hnd
  have hs := @List.sorted_mergeSort ℕ (fun a b => decide (a ≤ b))
      (by intro a b c h1 h2; simp at h1 h2 ⊢; omega)
      (by intro a b; simp [Bool.or_eq_true]; omega)
      ((rows.map (·.month)).dedup)
  have hle : (sortedMonths rows).Pairwise (fun a b => a ≤ b) := by
    refine hs.imp ?_
    intro a b h
    simpa using h
  exact (hle.and hnd2).imp (fun h => lt_of_le_of_ne h.1 h.2)

/-- The seasonal series has strictly increasing month labels. -/
theorem seasonal_pairwise (rows : List Row) :
    (seasonal_performance rows).Pairwise (fun a b => a.1 < b.1) := by
  unfold seasonal_performance
  rw [List.pairwise_map]
  exact sortedMonths_sorted_lt rows

/-- A nonempty dataset yields a nonempty seasonal series. -/
theorem seasonal_ne_nil (rows : List Row) (h : rows ≠ []) :
    seasonal_performance rows ≠ [] := by
  have hperm := List.mergeSort_perm ((rows.map (·.month)).dedup) (fun a b => decide (a ≤ b))
  have hlen : (sortedMonths rows).length = ((rows.map (·.month)).dedup).length := by
    unfold sortedMonths
    exact hperm.length_eq
  have hd : (rows.map (·.month)).dedup ≠ [] := by
    simp [List.dedup_eq_nil, h]
  have hsm : sortedMonths rows ≠ [] := by
    intro hcon
    rw [hcon] at hlen
    exact hd (List.length_eq_zero.mp hlen.symm)
  simp [seasonal_performance, hsm]

/-- C9 theorem: peak and low season are the argmax and argmin of mean
sales_amount grouped by calendar month-of-year; when several months tie for
the extreme value the smallest month number is selected (the month labels in
the seasonal series are strictly increasing, so first occurrence = smallest). -/
theorem peak_low_season_spec (rows : List Row) (hne : rows ≠ []) :
    ∃ pv lv : ℕ × ℚ,
      idxmax (seasonal_performance rows) = some pv ∧
      idxmin (seasonal_performance rows) = some lv ∧
      peak_month rows = some pv.1 ∧
      low_month rows = some lv.1 ∧
      pv ∈ seasonal_performance rows ∧
      lv ∈ seasonal_performance rows ∧
      (∀ q ∈ seasonal_performance rows, q.2 ≤ pv.2 ∧ lv.2 ≤ q.2) ∧
      (∀ q ∈ seasonal_performance rows, q.2 = pv.2 → pv.1 ≤ q.1) ∧
      (∀ q ∈ seasonal_performance rows, q.2 = lv.2 → lv.1 ≤ q.1) := by
  have hsne := seasonal_ne_nil rows hne
  obtain ⟨pv, hpv⟩ := Option.isSome_iff_exists.mp (idxmax_isSome hsne)
  obtain ⟨lv, hlv⟩ := Option.isSome_iff_exists.mp (idxmin_isSome hsne)
  obtain ⟨hpmem, hpmax⟩ := idxmax_spec hpv
  obtain ⟨hlmem, hlmin⟩ := idxmin_spec hlv
  exact ⟨pv, lv, hpv, hlv, by simp [peak_month, hpv], by simp [low_month, hlv],
    hpmem, hlmem,
    fun q hq => ⟨hpmax q hq, hlmin q hq⟩,
    idxmax_first (seasonal_pairwise rows) hpv,
    idxmin_first (seasonal_pairwise rows) hlv⟩

/-- C9 witness: the argmax/argmin characterization instantiated on the
3-row fixture. -/
theorem peak_low_season_spec_witness :
    ∃ pv lv : ℕ × ℚ,
      idxmax (seasonal_performance fixtureA) = some pv ∧
      idxmin (seasonal_performance fixtureA) = some lv ∧
      peak_month fixtureA = some pv.1 ∧
      low_month fixtureA = some lv.1 ∧
      pv ∈ seasonal_performance fixtureA ∧
      lv ∈ seasonal_performance fixtureA ∧
      (∀ q ∈ seasonal_performance fixtureA, q.2 ≤ pv.2 ∧ lv.2 ≤ q.2) ∧
      (∀ q ∈ seasonal_performance fixtureA, q.2 = pv.2 → pv.1 ≤ q.1) ∧
      (∀ q ∈ seasonal_performance fixtureA, q.2 = lv.2 → lv.1 ≤ q.1) :=
  peak_low_season_spec fixtureA (by simp [fixtureA])

/-! ## statistical_insights: two-sample t-test -/

/-- The sales of the rows whose tier is exactly "Metro"
(`self.data[self.data['tier'] == 'Metro']['sales_amount']`). -/
def metro_sales (rows : List Row) : List ℚ :=
  (rows.filter (fun r => decide (r.tier = "Metro"))).map (·.sales_amount)

/-- The sales of the rows whose tier is exactly "Tier_1". -/
def tier1_sales (rows : List Row) : List ℚ :=
  (rows.filter (fun r => decide (r.tier = "Tier_1"))).map (·.sales_amount)

/-- Centered sum of squares of a sample: the numerator of its ddof=1
variance. -/
def centeredSS (l : List ℚ) : ℚ := (l.map (fun x => (x - mean l) ^ 2)).sum

/-- Embeds the definedness of `scipy.stats.ttest_ind(a, b)` (default
`equal_var=True`): the returned (statistic, pvalue) pair is NaN iff either
sample has fewer than two observations (the mean of an empty sample and the
ddof=1 variance of a sample of size < 2 are NaN, and with warnings suppressed
the call still returns normally), or the pooled variance is zero with equal
sample means (0/0).  With zero pooled variance and unequal means the statistic
is ±inf and the p-value 0 (defined).  The numeric value of a defined
statistic involves a square root and a Student-t CDF and is not needed by any
claim; only NaN-ness is modelled. -/
def ttest_nan (a b : List ℚ) : Bool :=
  decide (a.length < 2) || decide (b.length < 2) ||
    (decide (centeredSS a + centeredSS b = 0) && decide (mean a = mean b))

/-- The t-test step of `statistical_insights`: the source calls `ttest_ind`
on the Metro and Tier_1 sales with no emptiness check and no try/except.  The
result is embedded in `Except` to make explicit that no error path exists:
the step always returns `ok`, carrying whether the reported p-value is NaN
(`NaN < 0.05` is False, so the report then prints "Not Significant"). -/
def tier_ttest (rows : List Row) : Except String Bool :=
  Except.ok (ttest_nan (metro_sales rows) (tier1_sales rows))

/-- C3 amended theorem: when the exact-match filter for tier "Metro" or for
tier "Tier_1" selects zero rows, the t-test step completes without any error
and its statistics are NaN (p-value undefined, reported as "Not
Significant"); it does not fail with a descriptive error. -/
theorem tier_ttest_empty_group_no_error (rows : List Row)
    (h : metro_sales rows = [] ∨ tier1_sales rows = []) :
    tier_ttest rows = Except.ok true := by
  rcases h with h | h <;> simp [tier_ttest, ttest_nan, h]

/-- Dataset with Tier_1 rows only: the "Metro" filter selects zero rows. -/
def fixtureTier1Only : List Row :=
  [ mkRow "S1" "A" "Grocery" "North" "Tier_1" 2023 1 100 10 10 5,
    mkRow "S2" "A" "Grocery" "North" "Tier_1" 2023 1 120 12 10 5 ]

/-- Dataset with Metro rows only: the "Tier_1" filter selects zero rows. -/
def fixtureMetroOnly : List Row :=
  [ mkRow "S1" "A" "Grocery" "North" "Metro" 2023 1 100 10 10 5,
    mkRow "S2" "A" "Grocery" "North" "Metro" 2023 1 120 12 10 5 ]

/-- C3 counterexample: on a concrete dataset where the "Metro" filter matches
zero rows, the t-test step completes (ok) with NaN statistics and never
produces an error value — refuting the claim that it fails with a reported,
descriptive error. -/
theorem tier_ttest_no_error_counterexample :
    tier_ttest fixtureTier1Only = Except.ok true ∧
    ∀ msg : String, tier_ttest fixtureTier1Only ≠ Except.error msg := by
  constructor
  · simp [tier_ttest, ttest_nan, metro_sales, tier1_sales, fixtureTier1Only, mkRow]
  · intro msg
    simp [tier_ttest]

/-- C3 witness: the amended theorem instantiated on a dataset whose "Tier_1"
filter is empty. -/
theorem tier_ttest_empty_group_witness :
    tier_ttest fixtureMetroOnly = Except.ok true :=
  tier_ttest_empty_group_no_error fixtureMetroOnly
    (Or.inr (by simp [tier1_sales, fixtureMetroOnly, mkRow]))

/-! ## category_analysis and grouping algebra -/

/-- Pointwise sums split. -/
theorem sum_map_add_distrib {K : Type} (ks : List K) (f g : K → ℚ) :
    (ks.map (fun k => f k + g k)).sum = (ks.map f).sum + (ks.map g).sum := by
  induction ks with
  | nil => simp
  | cons a t ih => simp [ih]; ring

/-- Summing an indicator over a duplicate-free key list that contains the key
picks out the single value. -/
theorem sum_map_single {K : Type} [DecidableEq K] (ks : List K) (hnd : ks.Nodup)
    (k : K) (hk : k ∈ ks) (c : ℚ) :
    (ks.map (fun x => if k = x then c else 0)).sum = c := by
  induction ks with
  | nil => cases hk
  | cons a t ih =>
      obtain ⟨hna, hndt⟩ := List.nodup_cons.mp hnd
      rcases List.mem_cons.mp hk with rfl | hmem
      · simp only [List.map_cons, List.sum_cons]
        have hz : (t.map (fun x => if k = x then c else 0)).sum = 0 := by
          apply List.sum_eq_zero
          intro y hy
          obtain ⟨x, hx, rfl⟩ := List.mem_map.mp hy
          have : k ≠ x := fun he => hna (he ▸ hx)
          simp [this]
        rw [hz, add_zero]
        simp
      · have hne : k ≠ a := fun he => hna (he ▸ hmem)
        simp only [List.map_cons, List.sum_cons, if_neg hne, zero_add]
        exact ih hndt hmem

/-- Splitting a group sum at a cons cell. -/
theorem groupSum_cons {α K : Type} [DecidableEq K] (r : α) (l : List α) (key : α → K)
    (k : K) (m : α → ℚ) :
    groupSum (r :: l) key k m = (if key r = k then m r else 0) + groupSum l key k m := by
  by_cases h : key r = k <;> simp [groupSum, groupRows, List.filter_cons, h]

/-- Fiberwise summation over any duplicate-free covering key list equals the
ungrouped sum. -/
theorem groupSum_partition_aux {α K : Type} [DecidableEq K] (l : List α) (key : α → K)
    (m : α → ℚ) (ks : List K) (hnd : ks.Nodup) (hcov : ∀ r ∈ l, key r ∈ ks) :
    (ks.map (fun k => groupSum l key k m)).sum = (l.map m).sum := by
  induction l with
  | nil =>
      simp only [List.map_nil, List.sum_nil]
      apply List.sum_eq_zero
      intro y hy
      obtain ⟨x, _, rfl⟩ := List.mem_map.mp hy
      simp [groupSum, groupRows]
  | cons r t ih =>
      have hcov2 : ∀ x ∈ t, key x ∈ ks := fun x hx => hcov x (List.mem_cons_of_mem _ hx)
      have hkr : key r ∈ ks := hcov r (List.mem_cons_self _ _)
      have hsplit : (ks.map (fun k => groupSum (r :: t) key k m)).sum
          = (ks.map (fun k => if key r = k then m r else 0)).sum
            + (ks.map (fun k => groupSum t key k m)).sum := by
        rw [← sum_map_add_distrib]
        congr 1
        apply List.map_congr_left
        intro k _
        exact groupSum_cons r t key k m
      rw [hsplit, sum_map_single ks hnd (key r) hkr (m r), ih hcov2]
      simp

/-- C6 partition fact: for every grouping key, the per-group sums of any
measure recombine to the ungrouped total, exactly. -/
theorem groupSum_partition {α K : Type} [DecidableEq K] (l : List α) (key : α → K)
    (m : α → ℚ) :
    ((groupKeys l key).map (fun k => groupSum l key k m)).sum = (l.map m).sum :=
  groupSum_partition_aux l key m _ (List.nodup_dedup _)
    (fun r hr => mem_groupKeys.mpr ⟨r, hr, rfl⟩)

/-- One row of the `category_metrics` table of `category_analysis`:
`groupby('category').agg({...}).round(2)` plus the two share columns
(computed from the rounded sums, as the source does, and rounded to one
decimal place). -/
structure CategoryMetrics where
  sales_amount : ℚ
  net_profit : ℚ
  gross_margin_pct : ℚ
  net_margin_pct : ℚ
  customer_count : ℚ
  inventory_turnover_ratio : ℚ
  Sales_Share_pct : Option ℚ
  Profit_Contribution : Option ℚ
deriving DecidableEq, Repr

/-- The distinct categories: the index of `groupby('category')`. -/
def categoryKeys (rows : List Row) : List String := groupKeys rows (·.category)

/-- The rounded per-category sales sum (column `sales_amount` of the table). -/
def categorySales (rows : List Row) (k : String) : ℚ :=
  roundTo 2 (groupSum rows (·.category) k (·.sales_amount))

/-- `category_metrics['sales_amount'].sum()`: the share denominator. -/
def categorySalesTotal (rows : List Row) : ℚ :=
  ((categoryKeys rows).map (fun k => categorySales rows k)).sum

/-- The rounded per-category profit sum. -/
def categoryProfit (rows : List Row) (k : String) : ℚ :=
  roundTo 2 (groupSum rows (·.category) k (·.net_profit))

/-- `category_metrics['net_profit'].sum()`. -/
def categoryProfitTotal (rows : List Row) : ℚ :=
  ((categoryKeys rows).map (fun k => categoryProfit rows k)).sum

/-- The `category_metrics` row at category `k`. -/
def category_metrics (rows : List Row) (k : String) : CategoryMetrics :=
  { sales_amount := categorySales rows k
    net_profit := categoryProfit rows k
    gross_margin_pct := roundTo 2 (groupMean rows (·.category) k (·.gross_margin_pct))
    net_margin_pct := roundTo 2 (groupMean rows (·.category) k (·.net_margin_pct))
    customer_count := roundTo 2 (groupSum rows (·.category) k (·.customer_count))
    inventory_turnover_ratio := roundTo 2 (groupMean rows (·.category) k (·.inventory_turnover_ratio))
    Sales_Share_pct := roundOpt 1 ((safeDiv (categorySales rows k) (categorySalesTotal rows)).map (· * 100))
    Profit_Contribution := roundOpt 1 ((safeDiv (categoryProfit rows k) (categoryProfitTotal rows)).map (· * 100)) }

/-- The exact sales share of the claim: group_sales / total × 100. -/
def sales_share {K : Type} [DecidableEq K] (rows : List Row) (key : Row → K) (k : K) : ℚ :=
  groupSum rows key k (·.sales_amount) / total_revenue rows * 100

/-- Half-even integer rounding moves a value by at most 1/2. -/
theorem roundHalfEven_sub_abs_le (x : ℚ) : |(roundHalfEven x : ℚ) - x| ≤ 1 / 2 := by
  have h1 : (⌊x⌋ : ℚ) ≤ x := Int.floor_le x
  have h2 : x < ⌊x⌋ + 1 := Int.lt_floor_add_one x
  unfold roundHalfEven
  split_ifs with h3 h4 h5 <;> rw [abs_le] <;> constructor <;> push_cast <;> linarith

/-- Rounding to d decimal places moves a value by at most half a unit in the
last place. -/
theorem roundTo_sub_abs_le (d : ℕ) (x : ℚ) : |roundTo d x - x| ≤ 1 / (2 * 10 ^ d) := by
  have hp : (0 : ℚ) < 10 ^ d := by positivity
  have h := roundHalfEven_sub_abs_le (x * 10 ^ d)
  have key : roundTo d x - x = ((roundHalfEven (x * 10 ^ d) : ℚ) - x * 10 ^ d) / 10 ^ d := by
    unfold roundTo
    field_simp
    ring
  rw [key, abs_div, abs_of_pos hp]
  rw [div_le_div_iff₀ hp (by positivity)]
  calc |(roundHalfEven (x * 10 ^ d) : ℚ) - x * 10 ^ d| * (2 * 10 ^ d)
      ≤ (1 / 2) * (2 * 10 ^ d) := by
        apply mul_le_mul_of_nonneg_right h
        positivity
    _ = 1 * 10 ^ d := by ring

/-- Termwise-close sums are close. -/
theorem sum_sub_sum_abs_le {K : Type} (ks : List K) (f g : K → ℚ) (c : ℚ)
    (h : ∀ k ∈ ks, |f k - g k| ≤ c) :
    |(ks.map f).sum - (ks.map g).sum| ≤ ks.length * c := by
  induction ks with
  | nil => simp
  | cons a t ih =>
      simp only [List.map_cons, List.sum_cons, List.length_cons]
      have h1 := h a (List.mem_cons_self _ _)
      have h2 := ih (fun k hk => h k (List.mem_cons_of_mem _ hk))
      have step : |f a + (t.map f).sum - (g a + (t.map g).sum)|
          ≤ |f a - g a| + |(t.map f).sum - (t.map g).sum| := by
        have := abs_add (f a - g a) ((t.map f).sum - (t.map g).sum)
        calc |f a + (t.map f).sum - (g a + (t.map g).sum)|
            = |(f a - g a) + ((t.map f).sum - (t.map g).sum)| := by ring_nf
          _ ≤ _ := this
      calc |f a + (t.map f).sum - (g a + (t.map g).sum)|
          ≤ |f a - g a| + |(t.map f).sum - (t.map g).sum| := step
        _ ≤ c + t.length * c := add_le_add h1 h2
        _ = (t.length + 1 : ℕ) * c := by push_cast; ring

/-- C6 amended theorem: (i) for every dataset and every grouping dimension,
the per-group sales sums (indeed, per-group sums of any measure) recombine
exactly to the ungrouped total; (ii) provided the ungrouped total sales is
nonzero, the exact shares group_sales/total×100 over the groups of that
dimension sum to exactly 100; (iii) the category table's displayed
Sales_Share_% values (computed from the rounded sums and rounded to one
decimal) sum to 100 up to the rounding tolerance of 0.05 per group. -/
theorem group_sums_and_shares {K : Type} [DecidableEq K] (rows : List Row)
    (key : Row → K) (m : Row → ℚ) :
    ((groupKeys rows key).map (fun k => groupSum rows key k m)).sum = (rows.map m).sum ∧
    (total_revenue rows ≠ 0 →
      ((groupKeys rows key).map (fun k => sales_share rows key k)).sum = 100) ∧
    (categorySalesTotal rows ≠ 0 →
      |(((categoryKeys rows).map
          (fun k => ((category_metrics rows k).Sales_Share_pct).getD 0)).sum) - 100|
        ≤ (categoryKeys rows).length * (1 / 20)) := by
  refine ⟨groupSum_partition rows key m, ?_, ?_⟩
  · intro hT
    have hshare : ∀ k, sales_share rows key k
        = groupSum rows key k (·.sales_amount) * (100 / total_revenue rows) := by
      intro k
      unfold sales_share
      field_simp
    simp only [hshare]
    rw [List.sum_map_mul_right, groupSum_partition rows key (·.sales_amount)]
    show total_revenue rows * (100 / total_revenue rows) = 100
    field_simp
  · intro hS
    have heshare : ((categoryKeys rows).map
        (fun k => categorySales rows k / categorySalesTotal rows * 100)).sum = 100 := by
      have hever : ∀ k, categorySales rows k / categorySalesTotal rows * 100
          = categorySales rows k * (100 / categorySalesTotal rows) := by
        intro k
        field_simp
      simp only [hever]
      rw [List.sum_map_mul_right]
      show categorySalesTotal rows * (100 / categorySalesTotal rows) = 100
      field_simp
    have hclose : ∀ k ∈ categoryKeys rows,
        |((category_metrics rows k).Sales_Share_pct).getD 0
          - categorySales rows k / categorySalesTotal rows * 100| ≤ 1 / 20 := by
      intro k _
      have hgd : ((category_metrics rows k).Sales_Share_pct).getD 0
          = roundTo 1 (categorySales rows k / categorySalesTotal rows * 100) := by
        simp [category_metrics, safeDiv, hS, roundOpt]
      rw [hgd]
      have := roundTo_sub_abs_le 1 (categorySales rows k / categorySalesTotal rows * 100)
      norm_num at this ⊢
      exact this
    have hsum := sum_sub_sum_abs_le (categoryKeys rows)
      (fun k => ((category_metrics rows k).Sales_Share_pct).getD 0)
      (fun k => categorySales rows k / categorySalesTotal rows * 100) (1 / 20) hclose
    rw [heshare] at hsum
    exact hsum

/-- C6 counterexample: on a dataset whose only group has zero sales, the
displayed share is NaN (undefined), so the shares cannot sum to 100. -/
theorem shares_zero_total_counterexample :
    categoryKeys fixtureZero = ["Grocery"] ∧
    (category_metrics fixtureZero "Grocery").Sales_Share_pct = none := by
  constructor
  · norm_num [categoryKeys, groupKeys, fixtureZero, mkRow]
  · norm_num [category_metrics, categorySales, categorySalesTotal, categoryKeys,
      groupKeys, groupSum, groupRows, safeDiv, roundOpt, roundTo, roundHalfEven,
      fixtureZero, mkRow]

/-- C6 witness: the partition and the exact-100 share sum instantiated on the
3-row fixture grouped by region. -/
theorem group_sums_and_shares_witness :
    ((groupKeys fixtureA (·.region)).map
        (fun k => groupSum fixtureA (·.region) k (·.sales_amount))).sum
      = (fixtureA.map (·.sales_amount)).sum ∧
    ((groupKeys fixtureA (·.region)).map (fun k => sales_share fixtureA (·.region) k)).sum
      = 100 ∧
    |(((categoryKeys fixtureA).map
        (fun k => ((category_metrics fixtureA k).Sales_Share_pct).getD 0)).sum) - 100|
      ≤ (categoryKeys fixtureA).length * (1 / 20) := by
  have h := group_sums_and_shares fixtureA (·.region) (·.sales_amount)
  exact ⟨h.1,
    h.2.1 (by norm_num [total_revenue, fixtureA, mkRow]),
    h.2.2 (by norm_num [categorySalesTotal, categoryKeys, groupKeys, categorySales,
      groupSum, groupRows, roundTo, roundHalfEven, fixtureA, mkRow])⟩

/-! ## Derived-metric formulas (currency conversions, ROI, per-store sales) -/

/-- Conversion of rupees to Crores as printed throughout the reports:
division by exactly 10,000,000. -/
def toCrores (x : ℚ) : ℚ := x / 10000000

/-- Conversion of rupees to Millions as printed in `time_series_analysis`:
division by exactly 1,000,000. -/
def toMillions (x : ℚ) : ℚ := x / 1000000

/-- C8 amended theorem: each derived metric is a pure function of the
already-reduced fields of its aggregate row, given by the stated formula
composed with the fixed-decimal half-even rounding the source applies
(`Sales_Crores`: /10,000,000 then 1 decimal; `ROI_Score`:
avg_margin × total_customers / 100,000 then 2 decimals; `Sales_Per_Store`:
total_sales / store_count then 0 decimals); the currency divisors are exactly
10,000,000 (Crores) and 1,000,000 (Millions). -/
theorem derived_metric_formulas (rows : List Row) (c k : String) :
    (chain_performance rows c).Sales_Crores
      = roundTo 1 (toCrores (chain_performance rows c).Total_Sales) ∧
    (chain_performance rows c).ROI_Score
      = roundTo 2 ((chain_performance rows c).Avg_Margin
          * (chain_performance rows c).Total_Customers / 100000) ∧
    (regional_metrics rows k).Sales_Per_Store
      = roundOpt 0 (safeDiv (regional_metrics rows k).sales_amount
          ((regional_metrics rows k).store_count : ℚ)) ∧
    toCrores = (fun x => x / 10000000) ∧
    toMillions = (fun x => x / 1000000) :=
  ⟨rfl, rfl, rfl, rfl, rfl⟩

/-- Single-row dataset whose chain sales are far below one Crore. -/
def fixtureSmallSales : List Row :=
  [ mkRow "S1" "A" "Grocery" "North" "Metro" 2023 1 123 10 5 1 ]

/-- C8 counterexample: the stored `Sales_Crores` value is the quotient
rounded to one decimal, not the exact quotient: for total sales 123 the
stored value is 0.0 while 123/10,000,000 is nonzero, so the claimed exact
formula equality fails. -/
theorem sales_crores_rounding_counterexample :
    (chain_performance fixtureSmallSales "A").Total_Sales = 123 ∧
    (chain_performance fixtureSmallSales "A").Sales_Crores = 0 ∧
    (123 : ℚ) / 10000000 ≠ 0 := by
  norm_num [chain_performance, groupSum, groupMean, groupNunique, groupRows,
    mean, roundTo, roundHalfEven, fixtureSmallSales, mkRow]

/-! ## statistical_insights: correlation matrix -/

/-- The values of a column centered at the column mean. -/
def centered (l : List ℚ) : List ℚ := l.map (fun x => x - mean l)

/-- Centered cross-product sum S_xy = Σ (x−x̄)(y−ȳ): the building block of
the Pearson correlation r = S_xy / √(S_xx·S_yy). -/
def sCross (xs ys : List ℚ) : ℚ :=
  (List.zipWith (· * ·) (centered xs) (centered ys)).sum

/-- One entry of `DataFrame.corr()`: NaN (`none`) iff either column has zero
centered sum of squares (constant column, or fewer than two rows); otherwise
the pair (S_xy, S_xx·S_yy), which determines r = p.1 / √p.2 with p.2 > 0.
The square root is irrational, so the entry is embedded by this pair. -/
def corrEntry (xs ys : List ℚ) : Option (ℚ × ℚ) :=
  if sCross xs xs = 0 ∨ sCross ys ys = 0 then none
  else some (sCross xs ys, sCross xs xs * sCross ys ys)

/-- The fixed list of six numeric measures of `statistical_insights`
(`numeric_cols`), indexed 0–5 in source order. -/
def numericCol (i : Fin 6) : Row → ℚ :=
  match i.val with
  | 0 => (·.sales_amount)
  | 1 => (·.gross_margin_pct)
  | 2 => (·.customer_count)
  | 3 => (·.avg_basket_value)
  | 4 => (·.inventory_turnover_ratio)
  | _ => (·.customer_satisfaction_score)

/-- The (i, j) entry of `self.data[numeric_cols].corr()`. -/
def correlation_matrix (rows : List Row) (i j : Fin 6) : Option (ℚ × ℚ) :=
  corrEntry (rows.map (numericCol i)) (rows.map (numericCol j))

/-- The embedded entry represents r = 1.0. -/
def corrIsOne (e : Option (ℚ × ℚ)) : Prop :=
  ∃ p, e = some p ∧ 0 < p.1 ∧ p.1 ^ 2 = p.2

/-- The embedded entry, when defined, represents a value in [-1, 1]. -/
def corrInRange (e : Option (ℚ × ℚ)) : Prop :=
  ∀ p, e = some p → p.1 ^ 2 ≤ p.2

/-- The strong-correlation flag of the source: |r| > 0.5 (false on NaN, since
`abs(nan) > 0.5` is False). -/
def corrStrong (e : Option (ℚ × ℚ)) : Bool :=
  match e with
  | none => false
  | some p => decide (p.2 < 4 * p.1 ^ 2)

/-- The reported direction: "positive" iff r > 0, i.e. iff S_xy > 0. -/
def corrPositive (e : Option (ℚ × ℚ)) : Bool :=
  match e with
  | none => false
  | some p => decide (0 < p.1)

/-- The `high_corr` list of the source: the pairs i < j flagged strong. -/
def high_corr (rows : List Row) : List (Fin 6 × Fin 6) :=
  (List.finRange 6).flatMap (fun i =>
    ((List.finRange 6).filter
        (fun j => decide (i < j) && corrStrong (correlation_matrix rows i j))).map
      (fun j => (i, j)))

/-- A sum of squares presented as a self-zip is nonnegative. -/
theorem sq_sum_zipWith_nonneg (l : List ℚ) : 0 ≤ (List.zipWith (· * ·) l l).sum := by
  rw [List.zipWith_same]
  apply List.sum_nonneg
  intro x hx
  obtain ⟨y, _, rfl⟩ := List.mem_map.mp hx
  exact mul_self_nonneg y

/-- Discriminant-style auxiliary inequality for the Cauchy–Schwarz induction:
0 ≤ Σ (a·vᵢ − b·uᵢ)², expanded. -/
theorem zipWith_cs_aux (a b : ℚ) (u : List ℚ) : ∀ v : List ℚ,
    0 ≤ a ^ 2 * (List.zipWith (· * ·) v v).sum
      - 2 * a * b * (List.zipWith (· * ·) u v).sum
      + b ^ 2 * (List.zipWith (· * ·) u u).sum := by
  induction u with
  | nil =>
      intro v
      have h1 := sq_sum_zipWith_nonneg v
      simp only [List.zipWith_nil_left, List.zipWith_nil_right, List.sum_nil]
      nlinarith [sq_nonneg a]
  | cons x u ih =>
      intro v
      cases v with
      | nil =>
          have h1 := sq_sum_zipWith_nonneg (x :: u)
          simp only [List.zipWith_nil_left, List.zipWith_nil_right, List.sum_nil]
          nlinarith [sq_nonneg b]
      | cons y v =>
          simp only [List.zipWith_cons_cons, List.sum_cons]
          have h := ih v
          nlinarith [sq_nonneg (a * y - b * x)]

/-- Cauchy–Schwarz for zipped lists: S_uv² ≤ S_uu·S_vv. -/
theorem zipWith_cauchy_schwarz (u : List ℚ) : ∀ v : List ℚ,
    ((List.zipWith (· * ·) u v).sum) ^ 2
      ≤ (List.zipWith (· * ·) u u).sum * (List.zipWith (· * ·) v v).sum := by
  induction u with
  | nil =>
      intro v
      simp
  | cons x u ih =>
      intro v
      cases v with
      | nil => simp
      | cons y v =>
          simp only [List.zipWith_cons_cons, List.sum_cons]
          have h1 := ih v
          have h2 := zipWith_cs_aux x y u v
          nlinarith [h1, h2]

/-- The centered cross-product is symmetric. -/
theorem sCross_comm (xs ys : List ℚ) : sCross xs ys = sCross ys xs := by
  unfold sCross
  rw [List.zipWith_comm_of_comm _ mul_comm]

/-- C5 amended theorem: the Pearson matrix over the six fixed measures is
symmetric; a diagonal entry whose column has nonzero centered sum of squares
equals 1.0 (a constant column gives an undefined NaN diagonal instead); every
defined entry represents a value in [-1, 1] (Cauchy–Schwarz); the `high_corr`
list contains exactly the off-diagonal pairs i < j with |r| > 0.5; and the
reported direction is "positive" exactly when r > 0. -/
theorem correlation_matrix_props (rows : List Row) (i j : Fin 6) :
    correlation_matrix rows i j = correlation_matrix rows j i ∧
    (sCross (rows.map (numericCol i)) (rows.map (numericCol i)) ≠ 0 →
      corrIsOne (correlation_matrix rows i i)) ∧
    corrInRange (correlation_matrix rows i j) ∧
    ((i, j) ∈ high_corr rows ↔
      i < j ∧ corrStrong (correlation_matrix rows i j) = true) ∧
    (corrPositive (correlation_matrix rows i j) = true ↔
      ∃ p, correlation_matrix rows i j = some p ∧ 0 < p.1) := by
  refine ⟨?_, ?_, ?_, ?_, ?_⟩
  · unfold correlation_matrix corrEntry
    by_cases h1 : sCross (rows.map (numericCol i)) (rows.map (numericCol i)) = 0 <;>
      by_cases h2 : sCross (rows.map (numericCol j)) (rows.map (numericCol j)) = 0 <;>
      simp [h1, h2, sCross_comm (rows.map (numericCol i)) (rows.map (numericCol j)),
        mul_comm]
  · intro h
    have hnn : 0 ≤ sCross (rows.map (numericCol i)) (rows.map (numericCol i)) :=
      sq_sum_zipWith_nonneg (centered (rows.map (numericCol i)))
    have hpos : 0 < sCross (rows.map (numericCol i)) (rows.map (numericCol i)) :=
      lt_of_le_of_ne hnn (Ne.symm h)
    refine ⟨(sCross (rows.map (numericCol i)) (rows.map (numericCol i)),
      sCross (rows.map (numericCol i)) (rows.map (numericCol i))
        * sCross (rows.map (numericCol i)) (rows.map (numericCol i))), ?_, hpos, sq ..⟩
    simp [correlation_matrix, corrEntry, h]
  · intro p hp
    unfold correlation_matrix corrEntry at hp
    by_cases h1 : sCross (rows.map (numericCol i)) (rows.map (numericCol i)) = 0
    · simp [h1] at hp
    · by_cases h2 : sCross (rows.map (numericCol j)) (rows.map (numericCol j)) = 0
      · simp [h1, h2] at hp
      · obtain rfl : (sCross (rows.map (numericCol i)) (rows.map (numericCol j)),
            sCross (rows.map (numericCol i)) (rows.map (numericCol i))
              * sCross (rows.map (numericCol j)) (rows.map (numericCol j))) = p := by
          simpa [h1, h2] using hp
        exact zipWith_cauchy_schwarz (centered (rows.map (numericCol i)))
          (centered (rows.map (numericCol j)))
  · constructor
    · intro h
      simp only [high_corr, List.mem_flatMap, List.mem_map, List.mem_filter,
        List.mem_finRange, Bool.and_eq_true, decide_eq_true_eq, true_and] at h
      obtain ⟨a, b, ⟨hab, hs⟩, heq⟩ := h
      injection heq with e1 e2
      subst e1
      subst e2
      exact ⟨hab, hs⟩
    · intro h
      simp only [high_corr, List.mem_flatMap, List.mem_map, List.mem_filter,
        List.mem_finRange, Bool.and_eq_true, decide_eq_true_eq, true_and]
      exact ⟨i, j, ⟨h.1, h.2⟩, rfl⟩
  · cases e : correlation_matrix rows i j <;> simp [corrPositive, e]

/-- Two identical observations: every one of the six measures is a constant
column. -/
def fixtureConst : List Row :=
  [ mkRow "S1" "A" "Grocery" "North" "Metro" 2023 1 100 10 10 5,
    mkRow "S1" "A" "Grocery" "North" "Metro" 2023 1 100 10 10 5 ]

/-- C5 counterexample: on a dataset with a constant sales column, the
diagonal entry of the correlation matrix is NaN (undefined), not 1.0 — the
claimed for-every-dataset diagonal = 1.0 fails. -/
theorem corr_diag_nan_counterexample :
    correlation_matrix fixtureConst 0 0 = none ∧
    ¬ corrIsOne (correlation_matrix fixtureConst 0 0) := by
  have h : correlation_matrix fixtureConst 0 0 = none := by
    norm_num [correlation_matrix, corrEntry, sCross, centered, mean, numericCol,
      fixtureConst, mkRow]
  refine ⟨h, ?_⟩
  rw [h]
  rintro ⟨p, hp, -⟩
  simp at hp

/-- C5 witness: on the 3-row fixture the sales column is nonconstant, so the
(0,0) diagonal entry represents 1.0, and the (0,1)/(1,0) entries agree. -/
theorem correlation_matrix_props_witness :
    corrIsOne (correlation_matrix fixtureA 0 0) ∧
    correlation_matrix fixtureA 0 1 = correlation_matrix fixtureA 1 0 := by
  refine ⟨(correlation_matrix_props fixtureA 0 0).2.1 ?_,
    (correlation_matrix_props fixtureA 0 1).1⟩
  norm_num [sCross, centered, mean, numericCol, fixtureA, mkRow]

/-! ## operational_analysis: top-5 / bottom-5 selection

`DataFrame.nlargest(n, col)` (default `keep='first'`) drops the rows whose
key is NaN, sorts the remainder by the key in descending order with ties kept
in original row order (a stable sort), and takes the first n rows;
`nsmallest` is the ascending counterpart.  A stable sorted permutation is
unique, so the stable insertion sort `stSort` below embeds it. -/

/-- Insert `a` (an element earlier in the original order than everything in
`l`) into the sorted list `l`, before any element it ties with. -/
def stInsert {α : Type} (le : α → α → Bool) (a : α) : List α → List α
  | [] => [a]
  | b :: t => if le a b then a :: b :: t else b :: stInsert le a t

/-- Stable insertion sort by the boolean preorder `le`. -/
def stSort {α : Type} (le : α → α → Bool) : List α → List α
  | [] => []
  | x :: xs => stInsert le x (stSort le xs)

/-- Membership through insertion. -/
theorem mem_stInsert {α : Type} (le : α → α → Bool) (a x : α) (l : List α) :
    x ∈ stInsert le a l ↔ x = a ∨ x ∈ l := by
  induction l with
  | nil => simp [stInsert]
  | cons b t ih =>
      by_cases h : le a b = true
      · simp [stInsert, h]
      · simp [stInsert, h, ih]
        tauto

/-- Insertion permutes the cons. -/
theorem stInsert_perm {α : Type} (le : α → α → Bool) (a : α) (l : List α) :
    (stInsert le a l).Perm (a :: l) := by
  induction l with
  | nil => simp [stInsert]
  | cons b t ih =>
      by_cases h : le a b = true
      · simp [stInsert, h]
      · rw [stInsert, if_neg h]
        exact (List.Perm.cons b ih).trans (List.Perm.swap a b t)

/-- The stable sort is a permutation of its input. -/
theorem stSort_perm {α : Type} (le : α → α → Bool) (l : List α) :
    (stSort le l).Perm l := by
  induction l with
  | nil => simp [stSort]
  | cons x xs ih =>
      exact (stInsert_perm le x (stSort le xs)).trans (List.Perm.cons x ih)

/-- Insertion into a sorted list is sorted (for a total, transitive boolean
preorder). -/
theorem stInsert_sorted {α : Type} (le : α → α → Bool)
    (htrans : ∀ x y z, le x y = true → le y z = true → le x z = true)
    (htot : ∀ x y, le x y = true ∨ le y x = true)
    (a : α) (l : List α) (hl : l.Pairwise (fun x y => le x y = true)) :
    (stInsert le a l).Pairwise (fun x y => le x y = true) := by
  induction l with
  | nil => simp [stInsert]
  | cons b t ih =>
      obtain ⟨hb, ht⟩ := List.pairwise_cons.mp hl
      by_cases h : le a b = true
      · rw [stInsert, if_pos h]
        refine List.Pairwise.cons ?_ hl
        intro x hx
        rcases List.mem_cons.mp hx with rfl | hx2
        · exact h
        · exact htrans a b x h (hb x hx2)
      · rw [stInsert, if_neg h]
        refine List.Pairwise.cons ?_ (ih ht)
        intro x hx
        rcases (mem_stInsert le a x t).mp hx with rfl | hx2
        · rcases htot x b with h1 | h1
          · exact absurd h1 h
          · exact h1
        · exact hb x hx2

/-- The stable sort is sorted (for a total, transitive boolean preorder). -/
theorem stSort_sorted {α : Type} (le : α → α → Bool)
    (htrans : ∀ x y z, le x y = true → le y z = true → le x z = true)
    (htot : ∀ x y, le x y = true ∨ le y x = true)
    (l : List α) :
    (stSort le l).Pairwise (fun x y => le x y = true) := by
  induction l with
  | nil => simp [stSort]
  | cons x xs ih => exact stInsert_sorted le htrans htot x (stSort le xs) ih

/-- The sort key of `nlargest(5, 'profit_margin')`; the selection functions
first drop the rows with NaN margin, so `getD` is only ever applied to
defined margins. -/
def marginVal (s : StoreEff) : ℚ := s.profit_margin.getD 0

/-- Descending comparison on the margin key. -/
def descLe (a b : StoreEff) : Bool := decide (marginVal b ≤ marginVal a)

/-- Ascending comparison on the margin key. -/
def ascLe (a b : StoreEff) : Bool := decide (marginVal a ≤ marginVal b)

/-- The full per-store aggregate table (`store_efficiency`), one row per
distinct (store_id, chain_name, tier) key. -/
def storeEffTable (rows : List Row) : List StoreEff :=
  (storeKeys rows).map (store_efficiency rows)

/-- `store_efficiency.nlargest(5, 'profit_margin')`. -/
def nlargest5 (table : List StoreEff) : List StoreEff :=
  (stSort descLe (table.filter (fun s => s.profit_margin.isSome))).take 5

/-- `store_efficiency.nsmallest(5, 'profit_margin')`. -/
def nsmallest5 (table : List StoreEff) : List StoreEff :=
  (stSort ascLe (table.filter (fun s => s.profit_margin.isSome))).take 5

/-- The rows selected by neither ranking. -/
def unselected (table : List StoreEff) : List StoreEff :=
  table.filter (fun s => !(decide (s ∈ nlargest5 table)) && !(decide (s ∈ nsmallest5 table)))

/-- `top_stores` of `operational_analysis`. -/
def top_stores (rows : List Row) : List StoreEff := nlargest5 (storeEffTable rows)

/-- `bottom_stores` of `operational_analysis`. -/
def bottom_stores (rows : List Row) : List StoreEff := nsmallest5 (storeEffTable rows)

/-- Selection facts for a per-store table with more than 10 rows whose
margins are all defined and pairwise distinct: both selections have exactly
5 rows, they are disjoint, and together with the unselected rows they
reconstruct the table exactly once. -/
theorem selection_general (table : List StoreEff)
    (hlen : 10 < table.length)
    (hsome : ∀ s ∈ table, s.profit_margin.isSome = true)
    (hdist : table.Pairwise (fun a b => a.profit_margin ≠ b.profit_margin)) :
    (nlargest5 table).length = 5 ∧
    (nsmallest5 table).length = 5 ∧
    (nlargest5 table).Disjoint (nsmallest5 table) ∧
    (nlargest5 table ++ nsmallest5 table ++ unselected table).Perm table := by
  have hfilter : table.filter (fun s => s.profit_margin.isSome) = table :=
    List.filter_eq_self.mpr hsome
  have htopdef : nlargest5 table = (stSort descLe table).take 5 := by
    rw [nlargest5, hfilter]
  have hbotdef : nsmallest5 table = (stSort ascLe table).take 5 := by
    rw [nsmallest5, hfilter]
  have hd : (stSort descLe table).Perm table := stSort_perm _ _
  have ha : (stSort ascLe table).Perm table := stSort_perm _ _
  have hn : (stSort descLe table).length = table.length := hd.length_eq
  have hdistV : table.Pairwise (fun a b => marginVal a ≠ marginVal b) := by
    refine hdist.imp_of_mem ?_
    intro x y hx hy hne
    obtain ⟨mx, hmx⟩ := Option.isSome_iff_exists.mp (hsome x hx)
    obtain ⟨my, hmy⟩ := Option.isSome_iff_exists.mp (hsome y hy)
    simp only [marginVal, hmx, hmy, Option.getD_some]
    intro he
    exact hne (by rw [hmx, hmy, he])
  have hTnodup : table.Nodup :=
    hdistV.imp (fun h heq => h (by rw [heq]))
  have hdnodup : (stSort descLe table).Nodup := hd.nodup_iff.mpr hTnodup
  have hdistVd : (stSort descLe table).Pairwise (fun a b => marginVal a ≠ marginVal b) :=
    (List.Perm.pairwise_iff (fun h => Ne.symm h) hd).mpr hdistV
  have hdistVa : (stSort ascLe table).Pairwise (fun a b => marginVal a ≠ marginVal b) :=
    (List.Perm.pairwise_iff (fun h => Ne.symm h) ha).mpr hdistV
  have htransd : ∀ x y z : StoreEff,
      descLe x y = true → descLe y z = true → descLe x z = true := by
    intro x y z
    simp only [descLe, decide_eq_true_eq]
    intro h1 h2
    exact le_trans h2 h1
  have htotd : ∀ x y : StoreEff, descLe x y = true ∨ descLe y x = true := by
    intro x y
    simp only [descLe, decide_eq_true_eq]
    exact le_total _ _
  have htransa : ∀ x y z : StoreEff,
      ascLe x y = true → ascLe y z = true → ascLe x z = true := by
    intro x y z
    simp only [ascLe, decide_eq_true_eq]
    exact le_trans
  have htota : ∀ x y : StoreEff, ascLe x y = true ∨ ascLe y x = true := by
    intro x y
    simp only [ascLe, decide_eq_true_eq]
    exact le_total _ _
  have hstrictd : (stSort descLe table).Pairwise (fun x y => marginVal y < marginVal x) := by
    have hcomb := (stSort_sorted descLe htransd htotd table).and hdistVd
    refine hcomb.imp ?_
    rintro x y ⟨h1, h2⟩
    have h1q : marginVal y ≤ marginVal x := by simpa [descLe] using h1
    exact lt_of_le_of_ne h1q (fun he => h2 he.symm)
  have hstricta : (stSort ascLe table).Pairwise (fun x y => marginVal x < marginVal y) := by
    have hcomb := (stSort_sorted ascLe htransa htota table).and hdistVa
    refine hcomb.imp ?_
    rintro x y ⟨h1, h2⟩
    have h1q : marginVal x ≤ marginVal y := by simpa [ascLe] using h1
    exact lt_of_le_of_ne h1q h2
  have hrev : stSort ascLe table = (stSort descLe table).reverse := by
    haveI : IsAntisymm StoreEff (fun x y => marginVal x < marginVal y) :=
      ⟨fun x y h1 h2 => absurd (lt_trans h1 h2) (lt_irrefl _)⟩
    refine @List.eq_of_perm_of_sorted StoreEff (fun x y => marginVal x < marginVal y) _ _ _
      (ha.trans (hd.symm.trans (List.reverse_perm _).symm)) hstricta ?_
    exact List.pairwise_reverse.mpr hstrictd
  have hlen5 : (5 : ℕ) ≤ (stSort descLe table).length - 5 := by omega
  have hdisj : (nlargest5 table).Disjoint (nsmallest5 table) := by
    rw [htopdef, hbotdef, hrev]
    intro x hxt hxb
    rw [List.take_reverse, List.mem_reverse] at hxb
    have hxt2 : x ∈ (stSort descLe table).take ((stSort descLe table).length - 5) := by
      have heq : (stSort descLe table).take 5
          = ((stSort descLe table).take ((stSort descLe table).length - 5)).take 5 := by
        rw [List.take_take, min_eq_left hlen5]
      rw [heq] at hxt
      exact List.take_subset _ _ hxt
    have hsplit := List.take_append_drop ((stSort descLe table).length - 5)
      (stSort descLe table)
    have hnd2 := hdnodup
    rw [← hsplit] at hnd2
    obtain ⟨-, -, hdisj2⟩ := List.nodup_append.mp hnd2
    exact hdisj2 hxt2 hxb
  have htoplen : (nlargest5 table).length = 5 := by
    rw [htopdef, List.length_take, hn]
    omega
  have hbotlen : (nsmallest5 table).length = 5 := by
    rw [hbotdef, List.length_take, ha.length_eq]
    omega
  refine ⟨htoplen, hbotlen, hdisj, ?_⟩
  have htopsub : ∀ x ∈ nlargest5 table, x ∈ table := by
    intro x hx
    rw [htopdef] at hx
    exact hd.mem_iff.mp (List.take_subset _ _ hx)
  have hbotsub : ∀ x ∈ nsmallest5 table, x ∈ table := by
    intro x hx
    rw [hbotdef] at hx
    exact ha.mem_iff.mp (List.take_subset _ _ hx)
  have hunsub : ∀ x ∈ unselected table, x ∈ table := by
    intro x hx
    exact (List.mem_filter.mp hx).1
  have htopnodup : (nlargest5 table).Nodup := by
    rw [htopdef]
    exact List.Nodup.sublist (List.take_sublist _ _) hdnodup
  have hbotnodup : (nsmallest5 table).Nodup := by
    rw [hbotdef]
    exact List.Nodup.sublist (List.take_sublist _ _) (ha.nodup_iff.mpr hTnodup)
  have hunnodup : (unselected table).Nodup :=
    List.Nodup.sublist (List.filter_sublist _) hTnodup
  have hmemun : ∀ x, x ∈ unselected table ↔
      x ∈ table ∧ x ∉ nlargest5 table ∧ x ∉ nsmallest5 table := by
    intro x
    simp [unselected, List.mem_filter]
  have hLnodup : (nlargest5 table ++ nsmallest5 table ++ unselected table).Nodup := by
    rw [List.append_assoc, List.nodup_append]
    refine ⟨htopnodup, ?_, ?_⟩
    · rw [List.nodup_append]
      refine ⟨hbotnodup, hunnodup, ?_⟩
      intro x hxb hxu
      exact ((hmemun x).mp hxu).2.2 hxb
    · intro x hxt hx2
      rcases List.mem_append.mp hx2 with hxb | hxu
      · exact hdisj hxt hxb
      · exact ((hmemun x).mp hxu).2.1 hxt
  have hmem : ∀ x, x ∈ nlargest5 table ++ nsmallest5 table ++ unselected table ↔ x ∈ table := by
    intro x
    constructor
    · intro hx
      rcases List.mem_append.mp hx with hx1 | hxu
      · rcases List.mem_append.mp hx1 with hxt | hxb
        · exact htopsub x hxt
        · exact hbotsub x hxb
      · exact hunsub x hxu
    · intro hx
      by_cases ht : x ∈ nlargest5 table
      · exact List.mem_append.mpr (Or.inl (List.mem_append.mpr (Or.inl ht)))
      · by_cases hb : x ∈ nsmallest5 table
        · exact List.mem_append.mpr (Or.inl (List.mem_append.mpr (Or.inr hb)))
        · exact List.mem_append.mpr (Or.inr ((hmemun x).mpr ⟨hx, ht, hb⟩))
  exact (List.perm_ext_iff_of_nodup hLnodup hTnodup).mpr hmem

/-- C7 amended theorem: over the per-store aggregate, when there are more
than 10 stores and the per-store margins are all defined and pairwise
distinct, top-5 and bottom-5 each return exactly 5 stores, are disjoint, and
together with the unselected stores reconstruct the full per-store set
exactly once.  (With tied margins both selections keep first occurrences in
stable original order, and they can overlap — see the counterexample.) -/
theorem top_bottom_selection_spec (rows : List Row)
    (hlen : 10 < (storeEffTable rows).length)
    (hsome : ∀ s ∈ storeEffTable rows, s.profit_margin.isSome = true)
    (hdist : (storeEffTable rows).Pairwise
      (fun a b => a.profit_margin ≠ b.profit_margin)) :
    (top_stores rows).length = 5 ∧
    (bottom_stores rows).length = 5 ∧
    (top_stores rows).Disjoint (bottom_stores rows) ∧
    (top_stores rows ++ bottom_stores rows ++ unselected (storeEffTable rows)).Perm
      (storeEffTable rows) :=
  selection_general (storeEffTable rows) hlen hsome hdist

/-- Eleven stores with identical margins (10% each): maximal ties. -/
def fixtureTies : List Row :=
  [ mkRow "S01" "A" "Grocery" "North" "Metro" 2023 1 100 10 10 1,
    mkRow "S02" "A" "Grocery" "North" "Metro" 2023 1 100 10 10 1,
    mkRow "S03" "A" "Grocery" "North" "Metro" 2023 1 100 10 10 1,
    mkRow "S04" "A" "Grocery" "North" "Metro" 2023 1 100 10 10 1,
    mkRow "S05" "A" "Grocery" "North" "Metro" 2023 1 100 10 10 1,
    mkRow "S06" "A" "Grocery" "North" "Metro" 2023 1 100 10 10 1,
    mkRow "S07" "A" "Grocery" "North" "Metro" 2023 1 100 10 10 1,
    mkRow "S08" "A" "Grocery" "North" "Metro" 2023 1 100 10 10 1,
    mkRow "S09" "A" "Grocery" "North" "Metro" 2023 1 100 10 10 1,
    mkRow "S10" "A" "Grocery" "North" "Metro" 2023 1 100 10 10 1,
    mkRow "S11" "A" "Grocery" "North" "Metro" 2023 1 100 10 10 1 ]

/-- Inserting below everything leaves the element in front. -/
theorem stInsert_all {α : Type} (le : α → α → Bool) (a : α) (l : List α)
    (h : ∀ b ∈ l, le a b = true) : stInsert le a l = a :: l := by
  cases l with
  | nil => rfl
  | cons b t => rw [stInsert, if_pos (h b (List.mem_cons_self _ _))]

/-- On an all-ties input a stable sort is the identity: this is the
keep='first' tie-break of nlargest/nsmallest. -/
theorem stSort_const {α : Type} (le : α → α → Bool) (l : List α)
    (h : ∀ x ∈ l, ∀ y ∈ l, le x y = true) : stSort le l = l := by
  induction l with
  | nil => rfl
  | cons x xs ih =>
      rw [stSort,
        ih (fun a ha b hb => h a (List.mem_cons_of_mem _ ha) b (List.mem_cons_of_mem _ hb))]
      exact stInsert_all le x xs
        (fun b hb => h x (List.mem_cons_self _ _) b (List.mem_cons_of_mem _ hb))

/-- A group consisting of one row with profit 10 and sales 100 has a 10%
margin. -/
theorem margin_of_maps (rows : List Row) (k : String × String × String)
    (hp : (groupRows rows storeKey k).map (·.net_profit) = [10])
    (hs2 : (groupRows rows storeKey k).map (·.sales_amount) = [100]) :
    (store_efficiency rows k).profit_margin = some 10 := by
  simp only [store_efficiency, groupSum, hp, hs2]
  norm_num [safeDiv, roundOpt, roundTo, roundHalfEven]

/-- C7 counterexample: with 11 distinct stores all tied on margin, both
rankings keep the first five stores in original order, so top-5 equals
bottom-5 — they are not disjoint even though the store count exceeds 10. -/
theorem top_bottom_ties_counterexample :
    (storeEffTable fixtureTies).length = 11 ∧
    top_stores fixtureTies = bottom_stores fixtureTies ∧
    top_stores fixtureTies ≠ [] := by
  have hkeys : storeKeys fixtureTies =
      [("S01", "A", "Metro"), ("S02", "A", "Metro"), ("S03", "A", "Metro"),
       ("S04", "A", "Metro"), ("S05", "A", "Metro"), ("S06", "A", "Metro"),
       ("S07", "A", "Metro"), ("S08", "A", "Metro"), ("S09", "A", "Metro"),
       ("S10", "A", "Metro"), ("S11", "A", "Metro")] := by decide
  have hmargin : ∀ s ∈ storeEffTable fixtureTies, s.profit_margin = some 10 := by
    rw [storeEffTable, hkeys]
    intro s hs
    obtain ⟨k, hk, rfl⟩ := List.mem_map.mp hs
    fin_cases hk <;> exact margin_of_maps fixtureTies _ (by decide) (by decide)
  have hfilter : (storeEffTable fixtureTies).filter (fun s => s.profit_margin.isSome)
      = storeEffTable fixtureTies := by
    refine List.filter_eq_self.mpr ?_
    intro s hs
    rw [hmargin s hs]
    rfl
  have hlen : (storeEffTable fixtureTies).length = 11 := by
    rw [storeEffTable, hkeys]
    rfl
  have htiesd : ∀ x ∈ storeEffTable fixtureTies, ∀ y ∈ storeEffTable fixtureTies,
      descLe x y = true := by
    intro x hx y hy
    simp [descLe, marginVal, hmargin x hx, hmargin y hy]
  have htiesa : ∀ x ∈ storeEffTable fixtureTies, ∀ y ∈ storeEffTable fixtureTies,
      ascLe x y = true := by
    intro x hx y hy
    simp [ascLe, marginVal, hmargin x hx, hmargin y hy]
  have htop : top_stores fixtureTies = (storeEffTable fixtureTies).take 5 := by
    rw [top_stores, nlargest5, hfilter, stSort_const descLe _ htiesd]
  have hbot : bottom_stores fixtureTies = (storeEffTable fixtureTies).take 5 := by
    rw [bottom_stores, nsmallest5, hfilter, stSort_const ascLe _ htiesa]
  refine ⟨hlen, htop.trans hbot.symm, ?_⟩
  rw [htop]
  intro hcon
  have := congrArg List.length hcon
  rw [List.length_take, hlen] at this
  simp at this

/-- A per-store group consisting of a single row has margin
profit/sales×100 rounded to 2 decimals. -/
theorem store_margin_single (rows : List Row) (k : String × String × String) (p s : ℚ)
    (hp : (groupRows rows storeKey k).map (·.net_profit) = [p])
    (hs2 : (groupRows rows storeKey k).map (·.sales_amount) = [s])
    (hs0 : s ≠ 0) :
    (store_efficiency rows k).profit_margin = some (roundTo 2 (p / s * 100)) := by
  simp only [store_efficiency, groupSum, hp, hs2, List.sum_cons, List.sum_nil, add_zero]
  simp [safeDiv, hs0, roundOpt]

/-- Eleven stores with pairwise distinct margins 1%, 2%, ..., 11%. -/
def fixtureDistinct : List Row :=
  [ mkRow "S01" "A" "Grocery" "North" "Metro" 2023 1 100 1 1 1,
    mkRow "S02" "A" "Grocery" "North" "Metro" 2023 1 100 2 2 1,
    mkRow "S03" "A" "Grocery" "North" "Metro" 2023 1 100 3 3 1,
    mkRow "S04" "A" "Grocery" "North" "Metro" 2023 1 100 4 4 1,
    mkRow "S05" "A" "Grocery" "North" "Metro" 2023 1 100 5 5 1,
    mkRow "S06" "A" "Grocery" "North" "Metro" 2023 1 100 6 6 1,
    mkRow "S07" "A" "Grocery" "North" "Metro" 2023 1 100 7 7 1,
    mkRow "S08" "A" "Grocery" "North" "Metro" 2023 1 100 8 8 1,
    mkRow "S09" "A" "Grocery" "North" "Metro" 2023 1 100 9 9 1,
    mkRow "S10" "A" "Grocery" "North" "Metro" 2023 1 100 10 10 1,
    mkRow "S11" "A" "Grocery" "North" "Metro" 2023 1 100 11 11 1 ]

/-- C7 witness: the selection properties instantiated on the 11-store
distinct-margin fixture. -/
theorem top_bottom_selection_spec_witness :
    (top_stores fixtureDistinct).length = 5 ∧
    (bottom_stores fixtureDistinct).length = 5 ∧
    (top_stores fixtureDistinct).Disjoint (bottom_stores fixtureDistinct) ∧
    (top_stores fixtureDistinct ++ bottom_stores fixtureDistinct
      ++ unselected (storeEffTable fixtureDistinct)).Perm (storeEffTable fixtureDistinct) := by
  have hkeys2 : storeKeys fixtureDistinct = [("S01", "A", "Metro"), ("S02", "A", "Metro"), ("S03", "A", "Metro"), ("S04", "A", "Metro"), ("S05", "A", "Metro"), ("S06", "A", "Metro"), ("S07", "A", "Metro"), ("S08", "A", "Metro"), ("S09", "A", "Metro"), ("S10", "A", "Metro"), ("S11", "A", "Metro")] := by decide
  have hm1 : (store_efficiency fixtureDistinct ("S01", "A", "Metro")).profit_margin
      = some 1 := by
    rw [store_margin_single fixtureDistinct _ 1 100 (by decide) (by decide) (by norm_num)]
    norm_num [roundTo, roundHalfEven]
  have hm2 : (store_efficiency fixtureDistinct ("S02", "A", "Metro")).profit_margin
      = some 2 := by
    rw [store_margin_single fixtureDistinct _ 2 100 (by decide) (by decide) (by norm_num)]
    norm_num [roundTo, roundHalfEven]
  have hm3 : (store_efficiency fixtureDistinct ("S03", "A", "Metro")).profit_margin
      = some 3 := by
    rw [store_margin_single fixtureDistinct _ 3 100 (by decide) (by decide) (by norm_num)]
    norm_num [roundTo, roundHalfEven]
  have hm4 : (store_efficiency fixtureDistinct ("S04", "A", "Metro")).profit_margin
      = some 4 := by
    rw [store_margin_single fixtureDistinct _ 4 100 (by decide) (by decide) (by norm_num)]
    norm_num [roundTo, roundHalfEven]
  have hm5 : (store_efficiency fixtureDistinct ("S05", "A", "Metro")).profit_margin
      = some 5 := by
    rw [store_margin_single fixtureDistinct _ 5 100 (by decide) (by decide) (by norm_num)]
    norm_num [roundTo, roundHalfEven]
  have hm6 : (store_efficiency fixtureDistinct ("S06", "A", "Metro")).profit_margin
      = some 6 := by
    rw [store_margin_single fixtureDistinct _ 6 100 (by decide) (by decide) (by norm_num)]
    norm_num [roundTo, roundHalfEven]
  have hm7 : (store_efficiency fixtureDistinct ("S07", "A", "Metro")).profit_margin
      = some 7 := by
    rw [store_margin_single fixtureDistinct _ 7 100 (by decide) (by decide) (by norm_num)]
    norm_num [roundTo, roundHalfEven]
  have hm8 : (store_efficiency fixtureDistinct ("S08", "A", "Metro")).profit_margin
      = some 8 := by
    rw [store_margin_single fixtureDistinct _ 8 100 (by decide) (by decide) (by norm_num)]
    norm_num [roundTo, roundHalfEven]
  have hm9 : (store_efficiency fixtureDistinct ("S09", "A", "Metro")).profit_margin
      = some 9 := by
    rw [store_margin_single fixtureDistinct _ 9 100 (by decide) (by decide) (by norm_num)]
    norm_num [roundTo, roundHalfEven]
  have hm10 : (store_efficiency fixtureDistinct ("S10", "A", "Metro")).profit_margin
      = some 10 := by
    rw [store_margin_single fixtureDistinct _ 10 100 (by decide) (by decide) (by norm_num)]
    norm_num [roundTo, roundHalfEven]
  have hm11 : (store_efficiency fixtureDistinct ("S11", "A", "Metro")).profit_margin
      = some 11 := by
    rw [store_margin_single fixtureDistinct _ 11 100 (by decide) (by decide) (by norm_num)]
    norm_num [roundTo, roundHalfEven]
  have hmargins : (storeEffTable fixtureDistinct).map (·.profit_margin)
      = [some 1, some 2, some 3, some 4, some 5, some 6, some 7, some 8, some 9, some 10, some 11] := by
    rw [storeEffTable, hkeys2]
    simp only [List.map_map, List.map_cons, List.map_nil, Function.comp_apply]
    rw [hm1, hm2, hm3, hm4, hm5, hm6, hm7, hm8, hm9, hm10, hm11]
  have hsome2 : ∀ s ∈ storeEffTable fixtureDistinct, s.profit_margin.isSome = true := by
    intro s hs
    have hmem : s.profit_margin ∈ (storeEffTable fixtureDistinct).map (·.profit_margin) :=
      List.mem_map_of_mem _ hs
    rw [hmargins] at hmem
    simp only [List.mem_cons, List.not_mem_nil, or_false] at hmem
    rcases hmem with h|h|h|h|h|h|h|h|h|h|h <;> simp [h]
  have hdist2 : (storeEffTable fixtureDistinct).Pairwise
      (fun a b => a.profit_margin ≠ b.profit_margin) := by
    have hpw : ((storeEffTable fixtureDistinct).map (·.profit_margin)).Pairwise
        (fun a b => a ≠ b) := by
      rw [hmargins]
      norm_num [List.pairwise_cons]
    exact (List.pairwise_map).mp hpw
  have hlen2 : 10 < (storeEffTable fixtureDistinct).length := by
    rw [storeEffTable, hkeys2]
    norm_num
  exact top_bottom_selection_spec fixtureDistinct hlen2 hsome2 hdist2
